import Mathlib

/-!
Verification of the osquery configuration-and-schedule core
(`include/osquery/config.h`): the Schedule container of Packs, the
multi-source merge handed to ConfigParserPlugins, the crash/dirty-state
ledger, config digesting, and the plugin error-handling contracts.
-/

namespace OsqueryConfig

/-- A structured configuration value (object / array / string leaf), the
shape of the `boost::property_tree::ptree` documents parsed from each
source's raw JSON content. -/
inductive PTree where
  | str : String → PTree
  | obj : List (String × PTree) → PTree
  | arr : List PTree → PTree

/-- Look a key up in an object's field list (first match wins, as in a map). -/
def lookupKey (k : String) : List (String × PTree) → Option PTree
  | [] => none
  | (k2, v) :: tl => if k2 = k then some v else lookupKey k tl

/-- Whether an object field list binds a key. -/
def hasKey (k : String) (l : List (String × PTree)) : Bool :=
  (lookupKey k l).isSome

mutual
/-- Modelled from the spec: the type-aware merge of two per-source values
for one top-level key (the implementation lives in `config.cpp`, which is
not in the repository snapshot; only its contract appears in
`ConfigParserPlugin`'s documentation).  Dictionaries are merged key-by-key
recursively with the second (lexically later) source overriding on
conflicting leaves; lists are concatenated; otherwise the later value
replaces the earlier. -/
def mergeTree : PTree → PTree → PTree
  | PTree.obj a, PTree.obj b =>
      PTree.obj (mergeFields a b ++ b.filter (fun kv => !(hasKey kv.1 a)))
  | PTree.arr a, PTree.arr b => PTree.arr (a ++ b)
  | _, b => b

/-- Merge each field of the earlier object with the later object's binding
for the same key, keeping the earlier object's field order. -/
def mergeFields : List (String × PTree) → List (String × PTree) → List (String × PTree)
  | [], _ => []
  | (k, v) :: tl, b =>
      (k, match lookupKey k b with
          | some v2 => mergeTree v v2
          | none => v) :: mergeFields tl b
end

/-- Walk a path of object keys down a tree. -/
def lookupPath : PTree → List String → Option PTree
  | t, [] => some t
  | PTree.obj fields, k :: p =>
      match lookupKey k fields with
      | some v => lookupPath v p
      | none => none
  | PTree.str _, _ :: _ => none
  | PTree.arr _, _ :: _ => none

/-- Insert one (source, value) pair into a list sorted by source identifier. -/
def lexInsert {α : Type} (p : String × α) : List (String × α) → List (String × α)
  | [] => [p]
  | q :: qs => if p.1 ≤ q.1 then p :: q :: qs else q :: lexInsert p qs

/-- Sort (source, value) pairs by lexical order of the source identifier,
the order in which sources are merged (for the filesystem plugin this is
the lexical sorting of filenames). -/
def lexSort {α : Type} : List (String × α) → List (String × α)
  | [] => []
  | p :: ps => lexInsert p (lexSort ps)

/-- Modelled from the spec: combine every source's value for one top-level
configuration key, folding the pairwise merge over the sources in lexical
source order (the per-key merge loop of `config.cpp`, not in the snapshot).
Returns `none` when no source provides the key. -/
def mergeSourceValues (srcs : List (String × PTree)) : Option PTree :=
  match lexSort srcs with
  | [] => none
  | (_, t) :: rest => some ((rest.map Prod.snd).foldl mergeTree t)

/-- A query pack: a named, sourced container of scheduled query
definitions (`osquery/packs.h` is outside the snapshot; only the identity
accessors `getName`/`getSource`, the applicability predicate
`shouldPackExecute`, and the parsed content are used by `config.h`). -/
structure Pack where
  name : String
  source : String
  content : PTree

/-- The identity under which the Schedule keys Packs: (name, source). -/
def Pack.sameIdentity (p q : Pack) : Prop :=
  p.name = q.name ∧ p.source = q.source

instance (p q : Pack) : Decidable (p.sameIdentity q) := by
  unfold Pack.sameIdentity; infer_instance

/-- `Schedule`: under the hood just a list of Pack objects (`container =
std::list<Pack>`), plus the crash-recovery bookkeeping populated during
ledger recovery: the single recorded failed query and the blacklist map. -/
structure Schedule where
  packs : List Pack
  failed_query : String
  blacklist : List (String × Nat)

/-- `Schedule::remove(pack, source)`: `packs_.remove_if` of every entry
whose name and source both match. -/
def Schedule.removeNS (s : Schedule) (name source : String) : Schedule :=
  { s with packs :=
      s.packs.filter (fun p => !(p.name = name && p.source = source)) }

/-- `Schedule::remove(pack)`: delegates to the two-argument remove with the
empty source. -/
def Schedule.removeName (s : Schedule) (name : String) : Schedule :=
  s.removeNS name ""

/-- `Schedule::add`: remove any entry with the pack's (name, source), then
push the new pack at the back. -/
def Schedule.add (s : Schedule) (p : Pack) : Schedule :=
  let s2 := s.removeNS p.name p.source
  { s2 with packs := s2.packs ++ [p] }

/-- One full iteration pass over the schedule: `begin()`/`end()` wrap the
pack list in a `boost::filter_iterator` whose `Step` predicate calls
`pack.shouldPackExecute()`; the pass yields, in container order, exactly
the packs the predicate currently accepts.  The predicate is a parameter
because applicability is computed from current host facts at iteration
time (`Pack` is external to the snapshot). -/
def Schedule.iter (shouldExec : Pack → Bool) (s : Schedule) : List Pack :=
  s.packs.filter shouldExec

/-- No two packs of a schedule share (name, source). -/
def uniqPacks (l : List Pack) : Prop :=
  l.Pairwise (fun p q => ¬ p.sameIdentity q)

/-- A status, mirroring `osquery::Status`: 0 is success, anything else a
failure with a message. -/
structure Status where
  code : Nat
  message : String

def Status.ok (s : Status) : Bool := s.code == 0

def Status.success : Status := ⟨0, "OK"⟩

def Status.failure (m : String) : Status := ⟨1, m⟩

/-- Per-query performance record: cumulative wall time, cumulative output
size, and the dirty bit meaning a start was recorded with no matching
completion yet. -/
structure QueryPerformance where
  wall_time : Nat
  output_size : Nat
  dirty : Bool

/-- The persisted performance/dirty-state ledger: query name to record. -/
def Ledger := List (String × QueryPerformance)

/-- Modelled from the spec: `Config::recordQueryStart` (implemented in
`config.cpp`, not in the snapshot) marks the query's dirty bit true,
creating the record if absent. -/
def recordQueryStart (led : Ledger) (n : String) : Ledger :=
  match led with
  | [] => [(n, ⟨0, 0, true⟩)]
  | (m, qp) :: tl =>
      if m = n then (m, { qp with dirty := true }) :: tl
      else (m, qp) :: recordQueryStart tl n

/-- Modelled from the spec: `Config::recordQueryPerformance` (in
`config.cpp`, not in the snapshot) clears the dirty bit and accumulates
the wall-time delay and output size into the running totals. -/
def recordQueryPerformance (led : Ledger) (n : String) (delay size : Nat) : Ledger :=
  match led with
  | [] => [(n, ⟨delay, size, false⟩)]
  | (m, qp) :: tl =>
      if m = n then
        (m, ⟨qp.wall_time + delay, qp.output_size + size, false⟩) :: tl
      else (m, qp) :: recordQueryPerformance tl n delay size

/-- Look up a query's performance record. -/
def lookupQP (led : Ledger) (n : String) : Option QueryPerformance :=
  match led with
  | [] => none
  | (m, qp) :: tl => if m = n then some qp else lookupQP tl n

/-- Increment a query's blacklist counter, creating it at 1 if absent. -/
def blIncr (bl : List (String × Nat)) (q : String) : List (String × Nat) :=
  match bl with
  | [] => [(q, 1)]
  | (n, c) :: tl => if n = q then (n, c + 1) :: tl else (n, c) :: blIncr tl q

/-- Read a query's blacklist counter (0 if absent). -/
def blCount (bl : List (String × Nat)) (q : String) : Nat :=
  match bl with
  | [] => 0
  | (n, c) :: tl => if n = q then c else blCount tl q

/-- Modelled from the spec: the `Schedule()` constructor's crash recovery
(in `config.cpp`, not in the snapshot).  It scans the persisted ledger:
any query whose dirty bit is still set from a prior run is recorded as the
single failed query and its blacklist counter is incremented. -/
def scheduleRecover (led : Ledger) (bl : List (String × Nat)) :
    String × List (String × Nat) :=
  led.foldl
    (fun acc entry =>
      if entry.2.dirty then (entry.1, blIncr acc.2 entry.1) else acc)
    ("", bl)

/-- Construct a Schedule at Config startup from the persisted ledger and
blacklist, per the `Schedule()` constructor contract. -/
def Schedule.recover (led : Ledger) (bl : List (String × Nat)) : Schedule :=
  { packs := [],
    failed_query := (scheduleRecover led bl).1,
    blacklist := (scheduleRecover led bl).2 }

/-- Set a key's value in a string-keyed association list, replacing in
place or appending if absent (the update discipline of the `std::map`
members of `Config`). -/
def setEntry {α : Type} : List (String × α) → String → α → List (String × α)
  | [], k, v => [(k, v)]
  | (k2, v2) :: tl, k, v =>
      if k2 = k then (k, v) :: tl else (k2, v2) :: setEntry tl k v

/-- The state a `Config` instance owns: the schedule, the performance
ledger, the file-category registry, the per-source digest cache, the
validity flag, and the start timestamp. -/
structure ConfigState where
  schedule : Schedule
  performance : Ledger
  files : List (String × List String)
  hash : List (String × String)
  valid : Bool
  start_time : Nat

/-- `Config::hashSource`: digest a source's raw content and store it in
the digest cache keyed by source (`md5` is the external digest
primitive). -/
def hashSource (md5 : String → String) (st : ConfigState)
    (source content : String) : ConfigState :=
  { st with hash := setEntry st.hash source (md5 content) }

/-- Modelled from the spec: `Config::updateSource` (in `config.cpp`, not
in the snapshot) digests one source's content into the digest cache; pack
discovery and parser dispatch are modelled separately below. -/
def updateSource (md5 : String → String) (st : ConfigState)
    (source content : String) : ConfigState :=
  hashSource md5 st source content

/-- Modelled from the spec: `Config::load` (in `config.cpp`, not in the
snapshot).  It calls the active ConfigPlugin's `genConfig`; on failure the
load fails and no state is touched; on success every (source, content)
pair is merged through `updateSource` and the config becomes valid. -/
def load (md5 : String → String)
    (genConfig : Except String (List (String × String)))
    (st : ConfigState) : Status × ConfigState :=
  match genConfig with
  | Except.error e => (Status.failure e, st)
  | Except.ok srcs =>
      (Status.success,
       { srcs.foldl (fun acc sc => updateSource md5 acc sc.1 sc.2) st with
           valid := true })

/-- Modelled from the spec: `Config::getMD5` (in `config.cpp`, not in the
snapshot) fails while no successful load has happened; otherwise it
returns the digest of the concatenation of all per-source digests in
deterministic (lexical, as `std::map` iterates) source order. -/
def getMD5 (md5 : String → String) (st : ConfigState) : Status × String :=
  if st.valid then
    (Status.success, md5 (String.join ((lexSort st.hash).map Prod.snd)))
  else
    (Status.failure "config not loaded", "")

/-- The value attached to a pack name under the "packs" key: either an
inline pack definition or a string reference to be resolved via the
active ConfigPlugin's `genPack`. -/
inductive PackValue where
  | inl : PTree → PackValue
  | ref : String → PackValue

/-- `ConfigPlugin::genPack`'s default implementation: it returns a failed
status unconditionally (it is not pure virtual; subclasses that do not
support pack indirection keep this behavior). -/
def defaultGenPack (name value : String) : Status × String :=
  (Status.failure "not implemented", "")

/-- `Config::addPack`: register a parsed pack subtree into the schedule
under (name, source). -/
def addPack (sc : Schedule) (name source : String) (tree : PTree) : Schedule :=
  sc.add ⟨name, source, tree⟩

/-- Modelled from the spec: the pack-discovery loop of
`Config::updateSource` (in `config.cpp`, not in the snapshot).  Each entry
under "packs" is added inline, or resolved through the plugin's `genPack`
when its value is a string; a failed resolution skips that single pack and
the rest of the source continues. -/
def discoverPacks (genPack : String → String → Option PTree)
    (source : String) (sc : Schedule)
    (entries : List (String × PackValue)) : Schedule :=
  entries.foldl
    (fun acc entry =>
      match entry.2 with
      | PackValue.inl t => addPack acc entry.1 source t
      | PackValue.ref v =>
          match genPack entry.1 v with
          | some t => addPack acc entry.1 source t
          | none => acc)
    sc

/-- A ConfigParserPlugin as the engine sees it: the declared top-level
keys and the `update` behavior (whether a given merged key map is
accepted). -/
structure ConfParser where
  keys : List String
  updateFn : List (String × PTree) → Status

/-- Restrict the merged configuration to the keys a parser declared:
`update` receives exactly the requested keys that are present. -/
def restrictKeys (merged : List (String × PTree)) (ks : List String) :
    List (String × PTree) :=
  merged.filter (fun kv => ks.contains kv.1)

/-- Modelled from the spec: per-parser enablement in Config's parser
dispatch (in `config.cpp`, not in the snapshot).  An enabled parser
receives `update` on its keys and stays enabled only if that succeeds; a
disabled parser is skipped.  The second component reports whether the
parser's `update` was called this cycle. -/
def stepParser (merged : List (String × PTree)) (pe : ConfParser × Bool) :
    (ConfParser × Bool) × Bool :=
  if pe.2 then
    ((pe.1, (pe.1.updateFn (restrictKeys merged pe.1.keys)).ok), true)
  else
    (pe, false)

/-- Modelled from the spec: one load/update cycle's dispatch to every
registered ConfigParserPlugin.  Returns the new enablement states, the
per-parser called-this-cycle flags, and the cycle's status — success
regardless of parser failures, since Config continues loading even if
some parsers disable themselves. -/
def dispatchParsers (merged : List (String × PTree))
    (ps : List (ConfParser × Bool)) :
    List (ConfParser × Bool) × List Bool × Status :=
  (ps.map (fun pe => (stepParser merged pe).1),
   ps.map (fun pe => (stepParser merged pe).2),
   Status.success)

/-- Run a sequence of load/update cycles, threading parser enablement. -/
def runCycles (ms : List (List (String × PTree)))
    (ps : List (ConfParser × Bool)) : List (ConfParser × Bool) :=
  ms.foldl (fun acc m => (dispatchParsers m acc).1) ps

/-- A schedule mutation: the operations `config.h` exposes on the pack
container. -/
inductive SchedOp where
  | addOp : Pack → SchedOp
  | removeNameOp : String → SchedOp
  | removeNSOp : String → String → SchedOp

def applyOp (s : Schedule) : SchedOp → Schedule
  | SchedOp.addOp p => s.add p
  | SchedOp.removeNameOp n => s.removeName n
  | SchedOp.removeNSOp n src => s.removeNS n src

def applyOps (s : Schedule) (ops : List SchedOp) : Schedule :=
  ops.foldl applyOp s

lemma mem_removeNS {s : Schedule} {n src : String} {q : Pack} :
    q ∈ (s.removeNS n src).packs ↔
      q ∈ s.packs ∧ ¬(q.name = n ∧ q.source = src) := by
  simp only [Schedule.removeNS, List.mem_filter, Bool.not_eq_true',
    Bool.and_eq_false_iff, decide_eq_false_iff_not]
  tauto

lemma mem_add {s : Schedule} {p q : Pack} :
    q ∈ (s.add p).packs ↔
      (q ∈ s.packs ∧ ¬(q.name = p.name ∧ q.source = p.source)) ∨ q = p := by
  simp [Schedule.add, List.mem_append, mem_removeNS]

lemma uniq_removeNS {s : Schedule} (h : uniqPacks s.packs) (n src : String) :
    uniqPacks (s.removeNS n src).packs :=
  List.Pairwise.filter _ h

lemma uniq_add {s : Schedule} (h : uniqPacks s.packs) (p : Pack) :
    uniqPacks (s.add p).packs := by
  have hmain : (s.add p).packs = (s.removeNS p.name p.source).packs ++ [p] :=
    rfl
  rw [uniqPacks, hmain, List.pairwise_append]
  refine ⟨uniq_removeNS h p.name p.source, List.pairwise_singleton _ _, ?_⟩
  intro a ha b hb
  rw [List.mem_singleton] at hb
  subst hb
  exact (mem_removeNS.mp ha).2

lemma uniq_applyOp {s : Schedule} (h : uniqPacks s.packs) (op : SchedOp) :
    uniqPacks (applyOp s op).packs := by
  cases op with
  | addOp p => exact uniq_add h p
  | removeNameOp n => exact uniq_removeNS h n ""
  | removeNSOp n src => exact uniq_removeNS h n src

lemma uniq_applyOps {s : Schedule} (h : uniqPacks s.packs)
    (ops : List SchedOp) : uniqPacks (applyOps s ops).packs := by
  induction ops generalizing s with
  | nil => exact h
  | cons op tl ih => exact ih (uniq_applyOp h op)

lemma filter_removeId_length :
    ∀ (l : List Pack) (nm src : String),
      List.Pairwise (fun p q => ¬ p.sameIdentity q) l →
      ∀ q ∈ l, q.name = nm → q.source = src →
      (l.filter (fun r => !(r.name = nm && r.source = src))).length + 1
        = l.length := by
  intro l nm src hpw q hq hqn hqs
  induction l with
  | nil => cases hq
  | cons r tl ih =>
    rw [List.pairwise_cons] at hpw
    by_cases hr : r.name = nm ∧ r.source = src
    · have htl : tl.filter (fun x => !(x.name = nm && x.source = src)) = tl := by
        apply List.filter_eq_self.mpr
        intro x hx
        have hne := hpw.1 x hx
        simp only [Pack.sameIdentity] at hne
        simp only [Bool.not_eq_true', Bool.and_eq_false_iff, decide_eq_false_iff_not]
        by_cases hxn : x.name = nm
        · right
          intro hxs
          exact hne ⟨hr.1.trans hxn.symm, hr.2.trans hxs.symm⟩
        · left; exact hxn
      have hdrop : (!(r.name = nm && r.source = src)) = false := by
        simp [hr.1, hr.2]
      rw [List.filter_cons, hdrop]
      simp only [Bool.false_eq_true, if_false]
      rw [htl]
      simp
    · have hqtl : q ∈ tl := by
        rcases hq with _ | hq
        · exact absurd ⟨hqn, hqs⟩ hr
        · assumption
      have hkeep : (!(r.name = nm && r.source = src)) = true := by
        simp only [Bool.not_eq_true', Bool.and_eq_false_iff, decide_eq_false_iff_not]
        by_cases hrn : r.name = nm
        · right; intro hrs; exact hr ⟨hrn, hrs⟩
        · left; exact hrn
      rw [List.filter_cons, hkeep]
      simp only [if_true, List.length_cons]
      have := ih hpw.2 hqtl
      omega

lemma add_length_eq {s : Schedule} {p q : Pack} (hu : uniqPacks s.packs)
    (hq : q ∈ s.packs) (hid : q.sameIdentity p) :
    (s.add p).packs.length = s.packs.length := by
  have := filter_removeId_length s.packs p.name p.source hu q hq hid.1 hid.2
  simp only [Schedule.add, Schedule.removeNS, List.length_append,
    List.length_cons, List.length_nil]
  omega

/-- C3: `Schedule::add` upserts by (name, source): when the schedule holds
a pack with the incoming pack's identity, the add replaces it and leaves
the size unchanged; and after any sequence of add/remove operations no
two packs share (name, source). -/
theorem C3_add_upserts_by_identity :
    (∀ (s : Schedule) (p q : Pack), uniqPacks s.packs → q ∈ s.packs →
        q.sameIdentity p → (s.add p).packs.length = s.packs.length) ∧
    (∀ (s : Schedule) (ops : List SchedOp), uniqPacks s.packs →
        uniqPacks (applyOps s ops).packs) :=
  ⟨fun _ _ _ hu hq hid => add_length_eq hu hq hid,
   fun _ ops hu => uniq_applyOps hu ops⟩

/-- Witness for C3 at a concrete schedule: replacing the single pack
("foo", "") keeps the size at 1, and an add/remove sequence from that
schedule keeps identities unique. -/
theorem C3_add_upserts_by_identity_witness :
    (((Schedule.mk [⟨"foo", "", PTree.obj []⟩] "" []).add
        ⟨"foo", "", PTree.arr []⟩).packs.length
      = (Schedule.mk [⟨"foo", "", PTree.obj []⟩] "" []).packs.length) ∧
    uniqPacks (applyOps (Schedule.mk [⟨"foo", "", PTree.obj []⟩] "" [])
        [SchedOp.addOp ⟨"bar", "src", PTree.obj []⟩,
         SchedOp.removeNameOp "foo"]).packs :=
  ⟨C3_add_upserts_by_identity.1 (Schedule.mk [⟨"foo", "", PTree.obj []⟩] "" [])
      ⟨"foo", "", PTree.arr []⟩ ⟨"foo", "", PTree.obj []⟩
      (List.pairwise_singleton _ _) (List.mem_singleton.mpr rfl) ⟨rfl, rfl⟩,
   C3_add_upserts_by_identity.2 (Schedule.mk [⟨"foo", "", PTree.obj []⟩] "" [])
      [SchedOp.addOp ⟨"bar", "src", PTree.obj []⟩,
       SchedOp.removeNameOp "foo"]
      (List.pairwise_singleton _ _)⟩

/-- C4: `Schedule::remove(name)` delegates to `remove(name, "")`: it only
removes entries whose source is the default empty source.  Concretely,
after adding ("foo", "") and ("foo", "custom"), removing by name "foo"
leaves exactly the ("foo", "custom") pack. -/
theorem C4_remove_by_name_default_source :
    (∀ c c2 : PTree,
        ((((Schedule.mk [] "" []).add ⟨"foo", "", c⟩).add
            ⟨"foo", "custom", c2⟩).removeName "foo").packs
          = [⟨"foo", "custom", c2⟩]) ∧
    (∀ (s : Schedule) (n : String) (q : Pack),
        q ∈ (s.removeName n).packs ↔
          q ∈ s.packs ∧ ¬(q.name = n ∧ q.source = "")) :=
  ⟨fun c c2 => by
      simp [Schedule.removeName, Schedule.removeNS, Schedule.add,
        List.filter],
   fun s n q => mem_removeNS⟩

/-- Witness for C4 at concrete packs: after adding ("foo", "") and
("foo", "custom"), remove by name keeps only the custom-source pack, and
the custom-source pack survives any by-name removal. -/
theorem C4_remove_by_name_default_source_witness :
    (((((Schedule.mk [] "" []).add ⟨"foo", "", PTree.obj []⟩).add
        ⟨"foo", "custom", PTree.obj []⟩).removeName "foo").packs
      = [⟨"foo", "custom", PTree.obj []⟩]) ∧
    (⟨"foo", "custom", PTree.obj []⟩ : Pack) ∈
      ((Schedule.mk [⟨"foo", "custom", PTree.obj []⟩] "" []).removeName
        "foo").packs :=
  ⟨C4_remove_by_name_default_source.1 (PTree.obj []) (PTree.obj []),
   (C4_remove_by_name_default_source.2
      (Schedule.mk [⟨"foo", "custom", PTree.obj []⟩] "" []) "foo"
      ⟨"foo", "custom", PTree.obj []⟩).mpr
     ⟨List.mem_singleton.mpr rfl, by simp⟩⟩

/-- C5: one iteration pass yields, in container order, exactly the packs
whose applicability predicate currently evaluates true; the predicate is
re-evaluated per pass, so a pack whose predicate flips between two passes
with no add/remove in between appears in one pass and not the other. -/
theorem C5_iteration_filters_on_applicability :
    (∀ (s : Schedule) (f : Pack → Bool) (q : Pack),
        q ∈ Schedule.iter f s ↔ q ∈ s.packs ∧ f q = true) ∧
    (∀ (s : Schedule) (f : Pack → Bool),
        (Schedule.iter f s).Sublist s.packs) ∧
    (∀ (s : Schedule) (p : Pack) (f g : Pack → Bool),
        p ∈ s.packs → f p = true → g p = false →
        p ∈ Schedule.iter f s ∧ p ∉ Schedule.iter g s) :=
  ⟨fun s f q => by simp [Schedule.iter, List.mem_filter],
   fun s f => List.filter_sublist s.packs,
   fun s p f g hp hf hg =>
     ⟨List.mem_filter.mpr ⟨hp, hf⟩,
      fun hmem => by
        have := (List.mem_filter.mp hmem).2
        rw [hg] at this
        exact Bool.false_ne_true this⟩⟩

/-- Witness for C5 at a concrete one-pack schedule: the pack is yielded
under an always-true predicate and not under an always-false one. -/
theorem C5_iteration_filters_on_applicability_witness :
    (⟨"p", "", PTree.obj []⟩ : Pack) ∈
        Schedule.iter (fun _ => true)
          (Schedule.mk [⟨"p", "", PTree.obj []⟩] "" []) ∧
    (⟨"p", "", PTree.obj []⟩ : Pack) ∉
        Schedule.iter (fun _ => false)
          (Schedule.mk [⟨"p", "", PTree.obj []⟩] "" []) :=
  C5_iteration_filters_on_applicability.2.2
    (Schedule.mk [⟨"p", "", PTree.obj []⟩] "" [])
    ⟨"p", "", PTree.obj []⟩ (fun _ => true) (fun _ => false)
    (List.mem_singleton.mpr rfl) rfl rfl

/-- C10: schedule membership is independent of applicability: `add` stores
a pack whose predicate is currently false (it is merely not yielded by
iteration), a subsequent remove by its identity deletes the stored entry,
and a subsequent add with the same identity replaces it size-neutrally. -/
theorem C10_membership_independent_of_applicability :
    (∀ (s : Schedule) (p : Pack), p ∈ (s.add p).packs) ∧
    (∀ (s : Schedule) (p : Pack) (g : Pack → Bool),
        g p = false → p ∉ Schedule.iter g (s.add p)) ∧
    (∀ (s : Schedule) (p q : Pack),
        q ∈ ((s.add p).removeNS p.name p.source).packs →
        ¬ q.sameIdentity p) ∧
    (∀ (s : Schedule) (p p2 : Pack), uniqPacks s.packs →
        p2.sameIdentity p →
        p2 ∈ ((s.add p).add p2).packs ∧
        ((s.add p).add p2).packs.length = (s.add p).packs.length) :=
  ⟨fun s p => mem_add.mpr (Or.inr rfl),
   fun s p g hg hmem => by
     have := (List.mem_filter.mp hmem).2
     rw [hg] at this
     exact Bool.false_ne_true this,
   fun s p q hq => (mem_removeNS.mp hq).2,
   fun s p p2 hu hid =>
     ⟨mem_add.mpr (Or.inr rfl),
      add_length_eq (uniq_add hu p) (mem_add.mpr (Or.inr rfl))
        ⟨hid.1.symm ▸ rfl, hid.2.symm ▸ rfl⟩⟩⟩

/-- Witness for C10 at a concrete pack with a false predicate: it is
stored by add, invisible to iteration, and replacing it keeps size 1. -/
theorem C10_membership_independent_of_applicability_witness :
    ((⟨"p", "s", PTree.obj []⟩ : Pack) ∈
        ((Schedule.mk [] "" []).add ⟨"p", "s", PTree.obj []⟩).packs) ∧
    ((⟨"p", "s", PTree.obj []⟩ : Pack) ∉
        Schedule.iter (fun _ => false)
          ((Schedule.mk [] "" []).add ⟨"p", "s", PTree.obj []⟩)) ∧
    (((Schedule.mk [] "" []).add ⟨"p", "s", PTree.obj []⟩).add
        ⟨"p", "s", PTree.arr []⟩).packs.length
      = ((Schedule.mk [] "" []).add ⟨"p", "s", PTree.obj []⟩).packs.length :=
  ⟨C10_membership_independent_of_applicability.1 (Schedule.mk [] "" [])
      ⟨"p", "s", PTree.obj []⟩,
   C10_membership_independent_of_applicability.2.1 (Schedule.mk [] "" [])
      ⟨"p", "s", PTree.obj []⟩ (fun _ => false) rfl,
   (C10_membership_independent_of_applicability.2.2.2 (Schedule.mk [] "" [])
      ⟨"p", "s", PTree.obj []⟩ ⟨"p", "s", PTree.arr []⟩
      List.Pairwise.nil ⟨rfl, rfl⟩).2⟩

lemma blCount_blIncr (bl : List (String × Nat)) (q : String) :
    blCount (blIncr bl q) q = blCount bl q + 1 := by
  induction bl with
  | nil => simp [blIncr, blCount]
  | cons hd tl ih =>
    by_cases h : hd.1 = q
    · simp [blIncr, blCount, h]
    · simp [blIncr, blCount, h, ih]

/-- C2: a query started but never completed before a restart is surfaced
by ledger recovery as the single failed query, with its blacklist counter
incremented by exactly one; recording the query's performance first clears
the dirty bit and prevents the increment. -/
theorem C2_dirty_bit_crash_recovery :
    ∀ (q : String) (bl : List (String × Nat)) (d sz : Nat),
      scheduleRecover (recordQueryStart [] q) bl = (q, blIncr bl q) ∧
      (Schedule.recover (recordQueryStart [] q) bl).failed_query = q ∧
      blCount (blIncr bl q) q = blCount bl q + 1 ∧
      lookupQP (recordQueryPerformance (recordQueryStart [] q) q d sz) q
        = some ⟨d, sz, false⟩ ∧
      scheduleRecover (recordQueryPerformance (recordQueryStart [] q) q d sz)
          bl = ("", bl) := by
  intro q bl d sz
  refine ⟨?_, ?_, blCount_blIncr bl q, ?_, ?_⟩
  · simp [recordQueryStart, scheduleRecover]
  · simp [Schedule.recover, recordQueryStart, scheduleRecover]
  · simp [recordQueryStart, recordQueryPerformance, lookupQP]
  · simp [recordQueryStart, recordQueryPerformance, scheduleRecover]

/-- Witness for C2 at the concrete query name "q". -/
theorem C2_dirty_bit_crash_recovery_witness :
    scheduleRecover (recordQueryStart [] "q") [] = ("q", [("q", 1)]) ∧
    blCount (blIncr [] "q") "q" = blCount [] "q" + 1 ∧
    scheduleRecover (recordQueryPerformance (recordQueryStart [] "q") "q" 3 7)
        [] = ("", []) :=
  ⟨(C2_dirty_bit_crash_recovery "q" [] 3 7).1,
   (C2_dirty_bit_crash_recovery "q" [] 3 7).2.2.1,
   (C2_dirty_bit_crash_recovery "q" [] 3 7).2.2.2.2⟩

/-- C6: when the active ConfigPlugin's `genConfig` fails, `load` returns a
failure and every piece of observable Config state — schedule, files,
performance ledger, digest cache (indeed the whole state) — is exactly
unchanged. -/
theorem C6_failed_load_preserves_state :
    ∀ (md5 : String → String) (st : ConfigState) (e : String),
      (load md5 (Except.error e) st).1.ok = false ∧
      (load md5 (Except.error e) st).2 = st ∧
      (load md5 (Except.error e) st).2.schedule = st.schedule ∧
      (load md5 (Except.error e) st).2.files = st.files ∧
      (load md5 (Except.error e) st).2.performance = st.performance ∧
      (load md5 (Except.error e) st).2.hash = st.hash :=
  fun md5 st e => ⟨rfl, rfl, rfl, rfl, rfl, rfl⟩

/-- Witness for C6 at a concrete fresh state and error message. -/
theorem C6_failed_load_preserves_state_witness :
    (load (fun s => s) (Except.error "io error")
        ⟨Schedule.mk [] "" [], [], [], [], false, 0⟩).1.ok = false ∧
    (load (fun s => s) (Except.error "io error")
        ⟨Schedule.mk [] "" [], [], [], [], false, 0⟩).2
      = ⟨Schedule.mk [] "" [], [], [], [], false, 0⟩ :=
  ⟨(C6_failed_load_preserves_state (fun s => s)
      ⟨Schedule.mk [] "" [], [], [], [], false, 0⟩ "io error").1,
   (C6_failed_load_preserves_state (fun s => s)
      ⟨Schedule.mk [] "" [], [], [], [], false, 0⟩ "io error").2.1⟩

/-- C8: the default `ConfigPlugin::genPack` fails unconditionally; and in
pack discovery a pack whose string reference fails to resolve is skipped
alone — the discovery result equals the one for the same entry list
without that pack, so all remaining packs of the source are processed. -/
theorem C8_genpack_default_fails_and_skip_is_local :
    (∀ name value : String, (defaultGenPack name value).1.ok = false) ∧
    (∀ (g : String → String → Option PTree) (source n v : String)
        (sc : Schedule) (pre post : List (String × PackValue)),
        g n v = none →
        discoverPacks g source sc (pre ++ (n, PackValue.ref v) :: post)
          = discoverPacks g source sc (pre ++ post)) :=
  ⟨fun _ _ => rfl,
   fun g source n v sc pre post h => by
     simp [discoverPacks, List.foldl_append, h]⟩

/-- Witness for C8 at a resolver that fails on the referenced pack:
discovery of [inline p1, failing ref, inline p2] equals discovery of
[inline p1, inline p2]. -/
theorem C8_genpack_default_fails_and_skip_is_local_witness :
    ((defaultGenPack "foo" "/packs/foo.json").1.ok = false) ∧
    discoverPacks (fun _ _ => none) "src" (Schedule.mk [] "" [])
        ([("p1", PackValue.inl (PTree.obj []))] ++
          ("bad", PackValue.ref "/nowhere.json") ::
            [("p2", PackValue.inl (PTree.obj []))])
      = discoverPacks (fun _ _ => none) "src" (Schedule.mk [] "" [])
          ([("p1", PackValue.inl (PTree.obj []))] ++
            [("p2", PackValue.inl (PTree.obj []))]) :=
  ⟨C8_genpack_default_fails_and_skip_is_local.1 "foo" "/packs/foo.json",
   C8_genpack_default_fails_and_skip_is_local.2 (fun _ _ => none) "src"
     "bad" "/nowhere.json" (Schedule.mk [] "" [])
     [("p1", PackValue.inl (PTree.obj []))]
     [("p2", PackValue.inl (PTree.obj []))] rfl⟩

lemma dispatch_states_getElem (merged : List (String × PTree))
    (ps : List (ConfParser × Bool)) (i : Nat) :
    ((dispatchParsers merged ps).1)[i]?
      = (ps[i]?).map (fun pe => (stepParser merged pe).1) := by
  simp [dispatchParsers]

lemma dispatch_calls_getElem (merged : List (String × PTree))
    (ps : List (ConfParser × Bool)) (i : Nat) :
    ((dispatchParsers merged ps).2.1)[i]?
      = (ps[i]?).map (fun pe => (stepParser merged pe).2) := by
  simp [dispatchParsers]

lemma stepParser_disabled (merged : List (String × PTree))
    {pe : ConfParser × Bool} (h : pe.2 = false) :
    stepParser merged pe = (pe, false) := by
  simp [stepParser, h]

lemma disabled_stays_disabled :
    ∀ (ms : List (List (String × PTree))) (ps : List (ConfParser × Bool))
      (i : Nat) (pe : ConfParser × Bool),
      ps[i]? = some pe → pe.2 = false →
      ∃ pe2, (runCycles ms ps)[i]? = some pe2 ∧ pe2.2 = false := by
  intro ms
  induction ms with
  | nil => exact fun ps i pe h hd => ⟨pe, h, hd⟩
  | cons m tl ih =>
    intro ps i pe h hd
    have hstep : ((dispatchParsers m ps).1)[i]? = some pe := by
      rw [dispatch_states_getElem, h, Option.map_some']
      rw [stepParser_disabled m hd]
    exact ih (dispatchParsers m ps).1 i pe hstep hd

/-- C7: a ConfigParserPlugin whose `update` fails on a load cycle is
disabled and its `update` is never called again on any later cycle, while
the cycle itself still succeeds and every still-enabled parser continues
to receive `update` calls. -/
theorem C7_failed_parser_never_updated_again :
    ∀ (merged : List (String × PTree)) (ps : List (ConfParser × Bool))
      (i : Nat) (pe : ConfParser × Bool),
      ps[i]? = some pe → pe.2 = true →
      (pe.1.updateFn (restrictKeys merged pe.1.keys)).ok = false →
      ((dispatchParsers merged ps).1)[i]? = some (pe.1, false) ∧
      (dispatchParsers merged ps).2.2.ok = true ∧
      (∀ m2, ((dispatchParsers m2 (dispatchParsers merged ps).1).2.1)[i]?
          = some false) ∧
      (∀ ms, ∃ pe2,
          (runCycles ms (dispatchParsers merged ps).1)[i]? = some pe2 ∧
          pe2.2 = false) ∧
      (∀ (m2 : List (String × PTree)) (j : Nat) (qe : ConfParser × Bool),
          ((dispatchParsers merged ps).1)[j]? = some qe → qe.2 = true →
          ((dispatchParsers m2 (dispatchParsers merged ps).1).2.1)[j]?
            = some true) := by
  intro merged ps i pe hps hen hfail
  have h1 : ((dispatchParsers merged ps).1)[i]? = some (pe.1, false) := by
    rw [dispatch_states_getElem, hps, Option.map_some']
    simp [stepParser, hen, hfail]
  refine ⟨h1, rfl, ?_, ?_, ?_⟩
  · intro m2
    rw [dispatch_calls_getElem, h1, Option.map_some']
    rw [stepParser_disabled m2 rfl]
  · intro ms
    exact disabled_stays_disabled ms (dispatchParsers merged ps).1 i
      (pe.1, false) h1 rfl
  · intro m2 j qe hj hqe
    rw [dispatch_calls_getElem, hj, Option.map_some']
    simp [stepParser, hqe]

/-- A parser that declares the "options" key and rejects every update. -/
def failingParser : ConfParser :=
  ⟨["options"], fun _ => Status.failure "bad"⟩

/-- Witness for C7 at the concrete failing parser: after the first cycle
it is disabled, and on a second identical cycle its `update` is not
called. -/
theorem C7_failed_parser_never_updated_again_witness :
    ((dispatchParsers [] [(failingParser, true)]).1)[0]?
        = some (failingParser, false) ∧
    ((dispatchParsers []
        (dispatchParsers [] [(failingParser, true)]).1).2.1)[0]?
      = some false :=
  ⟨(C7_failed_parser_never_updated_again [] [(failingParser, true)] 0
      (failingParser, true) rfl rfl rfl).1,
   (C7_failed_parser_never_updated_again [] [(failingParser, true)] 0
      (failingParser, true) rfl rfl rfl).2.2.1 []⟩

lemma setEntry_idem {α : Type} :
    ∀ (m : List (String × α)) (k : String) (v : α),
      setEntry (setEntry m k v) k v = setEntry m k v := by
  intro m k v
  induction m with
  | nil => simp [setEntry]
  | cons hd tl ih =>
    cases hd with
    | mk k2 v2 =>
      by_cases h : k2 = k
      · simp [setEntry, h]
      · simp [setEntry, h, ih]

/-- C9: `getMD5` fails while no successful load has happened; reloading
identical content leaves the digest unchanged; reloading different
content (under an injective digest primitive) changes it. -/
theorem C9_getmd5_validity_and_change_detection :
    (∀ (md5 : String → String) (st : ConfigState), st.valid = false →
        (getMD5 md5 st).1.ok = false) ∧
    (∀ (md5 : String → String) (st : ConfigState) (s A : String),
        getMD5 md5 (load md5 (Except.ok [(s, A)])
            (load md5 (Except.ok [(s, A)]) st).2).2
          = getMD5 md5 (load md5 (Except.ok [(s, A)]) st).2) ∧
    (∀ (md5 : String → String) (st : ConfigState) (s A B : String),
        Function.Injective md5 → A ≠ B → st.hash = [] →
        (getMD5 md5 (load md5 (Except.ok [(s, B)])
            (load md5 (Except.ok [(s, A)]) st).2).2).2
          ≠ (getMD5 md5 (load md5 (Except.ok [(s, A)]) st).2).2) := by
  refine ⟨?_, ?_, ?_⟩
  · intro md5 st hv
    simp [getMD5, hv, Status.ok, Status.failure]
  · intro md5 st s A
    simp [load, updateSource, hashSource, getMD5, setEntry_idem]
  · intro md5 st s A B hinj hAB hhash
    have h1 : (load md5 (Except.ok [(s, A)]) st).2.hash = [(s, md5 A)] := by
      simp [load, updateSource, hashSource, hhash, setEntry]
    have h3 : (load md5 (Except.ok [(s, B)])
        (load md5 (Except.ok [(s, A)]) st).2).2.hash = [(s, md5 B)] := by
      simp [load, updateSource, hashSource, hhash, setEntry]
    have hv1 : (load md5 (Except.ok [(s, A)]) st).2.valid = true := by
      simp [load]
    have hv3 : (load md5 (Except.ok [(s, B)])
        (load md5 (Except.ok [(s, A)]) st).2).2.valid = true := by
      simp [load]
    simp only [getMD5, h1, h3, hv1, hv3, if_true, lexSort, lexInsert,
      List.map_cons, List.map_nil]
    intro heq
    have h2 : md5 B = md5 A := by
      have := hinj heq
      simpa [String.join] using this
    exact hAB ((hinj h2).symm)

/-- Witness for C9 with the identity digest at concrete contents "x" and
"y": initial failure, digest stability on identical reload, digest change
on different content. -/
theorem C9_getmd5_validity_and_change_detection_witness :
    ((getMD5 (fun s => s)
        ⟨Schedule.mk [] "" [], [], [], [], false, 0⟩).1.ok = false) ∧
    getMD5 (fun s => s) (load (fun s => s) (Except.ok [("src", "x")])
        (load (fun s => s) (Except.ok [("src", "x")])
          ⟨Schedule.mk [] "" [], [], [], [], false, 0⟩).2).2
      = getMD5 (fun s => s) (load (fun s => s) (Except.ok [("src", "x")])
          ⟨Schedule.mk [] "" [], [], [], [], false, 0⟩).2 ∧
    (getMD5 (fun s => s) (load (fun s => s) (Except.ok [("src", "y")])
        (load (fun s => s) (Except.ok [("src", "x")])
          ⟨Schedule.mk [] "" [], [], [], [], false, 0⟩).2).2).2
      ≠ (getMD5 (fun s => s) (load (fun s => s) (Except.ok [("src", "x")])
          ⟨Schedule.mk [] "" [], [], [], [], false, 0⟩).2).2 :=
  ⟨C9_getmd5_validity_and_change_detection.1 (fun s => s)
      ⟨Schedule.mk [] "" [], [], [], [], false, 0⟩ rfl,
   C9_getmd5_validity_and_change_detection.2.1 (fun s => s)
      ⟨Schedule.mk [] "" [], [], [], [], false, 0⟩ "src" "x",
   C9_getmd5_validity_and_change_detection.2.2 (fun s => s)
      ⟨Schedule.mk [] "" [], [], [], [], false, 0⟩ "src" "x" "y"
      (fun _ _ h => h) (by decide) rfl⟩

lemma lookupKey_append_left {k : String} :
    ∀ {l1 : List (String × PTree)} (l2 : List (String × PTree)) {v : PTree},
      lookupKey k l1 = some v → lookupKey k (l1 ++ l2) = some v := by
  intro l1 l2 v h
  induction l1 with
  | nil => simp [lookupKey] at h
  | cons hd tl ih =>
    cases hd with
    | mk k2 v2 =>
      by_cases hk : k2 = k
      · rw [lookupKey, if_pos hk] at h
        rw [List.cons_append, lookupKey, if_pos hk]
        exact h
      · rw [lookupKey, if_neg hk] at h
        rw [List.cons_append, lookupKey, if_neg hk]
        exact ih h

lemma lookupKey_mergeFields :
    ∀ (a b : List (String × PTree)) (k : String) (v1 : PTree),
      lookupKey k a = some v1 →
      lookupKey k (mergeFields a b)
        = some (match lookupKey k b with
                | some v2 => mergeTree v1 v2
                | none => v1) := by
  intro a b k v1 h
  induction a with
  | nil => simp [lookupKey] at h
  | cons hd tl ih =>
    cases hd with
    | mk k0 w =>
      by_cases hk : k0 = k
      · rw [lookupKey, if_pos hk] at h
        rw [Option.some_inj] at h
        subst h
        subst hk
        rw [mergeFields, lookupKey, if_pos rfl]
      · rw [lookupKey, if_neg hk] at h
        rw [mergeFields, lookupKey, if_neg hk]
        exact ih h

lemma mergeTree_leaf_conflict :
    ∀ (p : List String) (t1 t2 : PTree) (w v : String),
      lookupPath t1 p = some (PTree.str w) →
      lookupPath t2 p = some (PTree.str v) →
      lookupPath (mergeTree t1 t2) p = some (PTree.str v) := by
  intro p
  induction p with
  | nil =>
    intro t1 t2 w v h1 h2
    rw [lookupPath, Option.some_inj] at h1 h2
    subst h1; subst h2
    rfl
  | cons k pp ih =>
    intro t1 t2 w v h1 h2
    cases t1 with
    | str s => rw [lookupPath] at h1; cases h1
    | arr l => rw [lookupPath] at h1; cases h1
    | obj a =>
      cases t2 with
      | str s => rw [lookupPath] at h2; cases h2
      | arr l => rw [lookupPath] at h2; cases h2
      | obj b =>
        rw [lookupPath] at h1 h2
        cases ha : lookupKey k a with
        | none => rw [ha] at h1; cases h1
        | some v1 =>
          rw [ha] at h1
          cases hb : lookupKey k b with
          | none => rw [hb] at h2; cases h2
          | some v2 =>
            rw [hb] at h2
            have hm := lookupKey_mergeFields a b k v1 ha
            rw [hb] at hm
            rw [mergeTree, lookupPath,
              lookupKey_append_left (b.filter (fun kv => !(hasKey kv.1 a))) hm]
            exact ih v1 v2 w v h1 h2

lemma foldl_mergeTree_arrays :
    ∀ (ls : List (List PTree)) (a : List PTree),
      (ls.map PTree.arr).foldl mergeTree (PTree.arr a)
        = PTree.arr (a ++ ls.flatten) := by
  intro ls
  induction ls with
  | nil => intro a; simp
  | cons l tl ih =>
    intro a
    simp only [List.map_cons, List.foldl_cons]
    have hstep : mergeTree (PTree.arr a) (PTree.arr l) = PTree.arr (a ++ l) :=
      rfl
    rw [hstep, ih]
    simp

lemma lexInsert_map_snd {α β : Type} (f : α → β) (p : String × α) :
    ∀ (l : List (String × α)),
      lexInsert (p.1, f p.2) (l.map (fun q => (q.1, f q.2)))
        = (lexInsert p l).map (fun q => (q.1, f q.2)) := by
  intro l
  induction l with
  | nil => rfl
  | cons q tl ih =>
    simp only [List.map_cons, lexInsert]
    by_cases h : p.1 ≤ q.1
    · simp [h]
    · simp [h, ih]

lemma lexSort_map_snd {α β : Type} (f : α → β) :
    ∀ (l : List (String × α)),
      lexSort (l.map (fun q => (q.1, f q.2)))
        = (lexSort l).map (fun q => (q.1, f q.2)) := by
  intro l
  induction l with
  | nil => rfl
  | cons p tl ih =>
    simp only [List.map_cons, lexSort, ih]
    exact lexInsert_map_snd f p (lexSort tl)

lemma lexInsert_ne_nil {α : Type} (p : String × α) (l : List (String × α)) :
    lexInsert p l ≠ [] := by
  cases l with
  | nil => simp [lexInsert]
  | cons q qs =>
    rw [lexInsert]
    by_cases h : p.1 ≤ q.1
    · simp [h]
    · simp [h]

lemma lexInsert_perm {α : Type} (p : String × α) :
    ∀ (l : List (String × α)), (lexInsert p l).Perm (p :: l) := by
  intro l
  induction l with
  | nil => exact List.Perm.refl _
  | cons q qs ih =>
    rw [lexInsert]
    by_cases h : p.1 ≤ q.1
    · rw [if_pos h]
    · rw [if_neg h]
      exact (ih.cons q).trans (List.Perm.swap p q qs)

lemma lexSort_perm {α : Type} :
    ∀ (l : List (String × α)), (lexSort l).Perm l := by
  intro l
  induction l with
  | nil => exact List.Perm.refl _
  | cons p tl ih =>
    rw [lexSort]
    exact (lexInsert_perm p (lexSort tl)).trans (ih.cons p)

/-- C1: the merge handed to ConfigParserPlugins.  For dictionary-valued
keys, the lexically later source wins on every conflicting leaf,
recursively (stated over arbitrary leaf paths); for list-valued keys, the
merged value is the concatenation of the per-source lists in lexical
source order, with length the sum of the input lengths (no deduplication,
no reordering). -/
theorem C1_multi_source_merge :
    (∀ (s1 s2 : String) (t1 t2 : PTree) (p : List String) (w v : String),
        s1 < s2 →
        lookupPath t1 p = some (PTree.str w) →
        lookupPath t2 p = some (PTree.str v) →
        ∃ m, mergeSourceValues [(s2, t2), (s1, t1)] = some m ∧
             lookupPath m p = some (PTree.str v)) ∧
    (∀ (s0 : String) (l0 : List PTree) (srcs : List (String × List PTree)),
        ∃ merged,
          mergeSourceValues
              (((s0, l0) :: srcs).map (fun sl => (sl.1, PTree.arr sl.2)))
            = some (PTree.arr merged) ∧
          merged = ((lexSort ((s0, l0) :: srcs)).map Prod.snd).flatten ∧
          merged.length
            = (((s0, l0) :: srcs).map (fun sl => sl.2.length)).sum) := by
  constructor
  · intro s1 s2 t1 t2 p w v hlt h1 h2
    refine ⟨mergeTree t1 t2, ?_, mergeTree_leaf_conflict p t1 t2 w v h1 h2⟩
    have hs : ¬ s2 ≤ s1 := not_le.mpr hlt
    simp [mergeSourceValues, lexSort, lexInsert, hs]
  · intro s0 l0 srcs
    obtain ⟨hd, tl, hsort⟩ :=
      List.exists_cons_of_ne_nil
        (show lexSort ((s0, l0) :: srcs) ≠ [] by
          rw [lexSort]; exact lexInsert_ne_nil _ _)
    refine ⟨hd.2 ++ (tl.map Prod.snd).flatten, ?_, ?_, ?_⟩
    · rw [mergeSourceValues,
        lexSort_map_snd (fun l : List PTree => PTree.arr l)
          ((s0, l0) :: srcs),
        hsort]
      simp only [List.map_cons, List.map_map]
      have hcomp :
          tl.map (Prod.snd ∘ fun q => (q.1, PTree.arr q.2))
            = (tl.map Prod.snd).map PTree.arr := by
        simp [List.map_map, Function.comp]
      rw [hcomp, foldl_mergeTree_arrays]
    · rw [hsort]
      simp
    · have hperm : ((lexSort ((s0, l0) :: srcs)).map
          (fun sl => sl.2.length)).sum
            = (((s0, l0) :: srcs).map (fun sl => sl.2.length)).sum :=
        ((lexSort_perm ((s0, l0) :: srcs)).map
          (fun sl => sl.2.length)).sum_eq
      rw [← hperm, hsort]
      simp only [List.length_append, List.length_flatten, List.map_map,
        List.map_cons, List.sum_cons, Function.comp_def]

/-- Witness for C1: two object sources "a" < "b" conflicting on leaf key
"k" merge to "b"'s value, and three list-valued sources concatenate in
lexical source order with summed length. -/
theorem C1_multi_source_merge_witness :
    (∃ m, mergeSourceValues
          [("b", PTree.obj [("k", PTree.str "vb")]),
           ("a", PTree.obj [("k", PTree.str "va")])] = some m ∧
        lookupPath m ["k"] = some (PTree.str "vb")) ∧
    (∃ merged,
        mergeSourceValues
            ((("b", [PTree.str "x"]) ::
              [("a", [PTree.str "y", PTree.str "z"])]).map
              (fun sl => (sl.1, PTree.arr sl.2)))
          = some (PTree.arr merged) ∧
        merged = ((lexSort (("b", [PTree.str "x"]) ::
            [("a", [PTree.str "y", PTree.str "z"])])).map Prod.snd).flatten ∧
        merged.length = (((("b", [PTree.str "x"]) ::
            [("a", [PTree.str "y", PTree.str "z"])])).map
            (fun sl => sl.2.length)).sum) :=
  ⟨C1_multi_source_merge.1 "a" "b" (PTree.obj [("k", PTree.str "va")])
      (PTree.obj [("k", PTree.str "vb")]) ["k"] "va" "vb"
      (String.lt_iff_toList_lt.mpr (by decide)) rfl rfl,
   C1_multi_source_merge.2 "b" [PTree.str "x"]
      [("a", [PTree.str "y", PTree.str "z"])]⟩

end OsqueryConfig
